import Mathlib

/-!
Shallow embedding of the Mentor-Sign-Up repository core logic.

The repository contains two CSV parsers and a form validator:
* `CSVDataTable.parseCSV` embeds the `parseCSV` arrow function of the
  `CSVDataTable` component (single pass, quote lookahead for escaped
  quotes, `\r\n` handled as one terminator, blank rows dropped,
  output is a list of rows of field strings).
* `LiveResponsesTable.parseCSV` embeds the `parseCSV` function of the
  `LiveResponsesTable` component (phase 1 splits on unquoted `\n` into
  trimmed lines, phase 2 splits each line on unquoted commas and strips
  wrapping quotes with the pattern anchored-quote-dot-star-quote, phase 3
  turns data rows into records keyed by the header row).
* `FormValidation.validateForm` models the validator imported by
  `BackupMentorForm.tsx` from `src/utils/formValidation`, a file that is
  not part of the provided sources; it is modelled from the spec.

Strings are Lean `String`s; the JavaScript `String.prototype.trim` is
embedded as `jsTrim` over the ECMAScript whitespace set.
-/

/-- Whitespace in the sense of the ECMAScript `trim` method: the
WhiteSpace production (tab, vertical tab, form feed, space, no-break
space, BOM and the Unicode space separators) together with the
LineTerminator production (LF, CR, LS, PS). -/
def jsWhitespace (c : Char) : Bool :=
  c == ' ' || c == '\t' || c == '\n' || c == '\r' ||
  c.toNat == 0x0B || c.toNat == 0x0C || c.toNat == 0xA0 ||
  c.toNat == 0x1680 || (0x2000 ≤ c.toNat && c.toNat ≤ 0x200A) ||
  c.toNat == 0x2028 || c.toNat == 0x2029 || c.toNat == 0x202F ||
  c.toNat == 0x205F || c.toNat == 0x3000 || c.toNat == 0xFEFF

/-- Embedding of the JavaScript `trim` method: remove leading and
trailing ECMAScript whitespace. -/
def jsTrim (s : String) : String :=
  String.mk (((s.data.dropWhile jsWhitespace).reverse.dropWhile jsWhitespace).reverse)

namespace CSVDataTable

/-- Row termination of the `CSVDataTable` parser: push the trimmed
current field onto the current row, and keep the row only when some
cell has positive length. -/
def endRow (current : String) (currentRow : List String)
    (rows : List (List String)) : List (List String) :=
  if (currentRow ++ [jsTrim current]).any (fun cell => decide (0 < cell.length)) then
    rows ++ [currentRow ++ [jsTrim current]]
  else rows

/-- End-of-input handling of the `CSVDataTable` parser: when the current
field is nonempty or the current row already has fields, emit the final
row (subject to the blank-row filter of `endRow`). -/
def finishCSV (current : String) (currentRow : List String)
    (rows : List (List String)) : List (List String) :=
  if current ≠ "" ∨ currentRow ≠ [] then endRow current currentRow rows else rows

/-- Character loop of the `CSVDataTable` parser.  The JavaScript loop
walks the text with an index and a one-character lookahead; here the
remaining text is the head of the character list and the lookahead is
the head of its tail. -/
def parseAux : List Char → Bool → String → List String → List (List String) →
    List (List String)
  | [], _, current, currentRow, rows => finishCSV current currentRow rows
  | [c], inQuotes, current, currentRow, rows =>
    if c = '"' then
      parseAux [] (!inQuotes) current currentRow rows
    else if c = ',' ∧ inQuotes = false then
      parseAux [] false "" (currentRow ++ [jsTrim current]) rows
    else if (c = '\n' ∨ c = '\r') ∧ inQuotes = false then
      parseAux [] false "" [] (endRow current currentRow rows)
    else
      parseAux [] inQuotes (current.push c) currentRow rows
  | c :: c2 :: cs, inQuotes, current, currentRow, rows =>
    if c = '"' then
      if inQuotes = true ∧ c2 = '"' then
        parseAux cs true (current.push '"') currentRow rows
      else
        parseAux (c2 :: cs) (!inQuotes) current currentRow rows
    else if c = ',' ∧ inQuotes = false then
      parseAux (c2 :: cs) false "" (currentRow ++ [jsTrim current]) rows
    else if (c = '\n' ∨ c = '\r') ∧ inQuotes = false then
      if c = '\r' ∧ c2 = '\n' then
        parseAux cs false "" [] (endRow current currentRow rows)
      else
        parseAux (c2 :: cs) false "" [] (endRow current currentRow rows)
    else
      parseAux (c2 :: cs) inQuotes (current.push c) currentRow rows

/-- The `parseCSV` function of the `CSVDataTable` component. -/
def parseCSV (text : String) : List (List String) :=
  parseAux text.data false "" [] []

/-- A row passes the blank-row filter when some cell is nonempty. -/
def rowHasContent (r : List String) : Bool :=
  r.any (fun cell => decide (0 < cell.length))

end CSVDataTable

namespace LiveResponsesTable

/-- Line emission of the `LiveResponsesTable` parser: the trimmed current
line is kept only when it is nonempty (the JavaScript truthiness test on
the trimmed string). -/
def pushLine (currentLine : String) (lines : List String) : List String :=
  if jsTrim currentLine ≠ "" then lines ++ [jsTrim currentLine] else lines

/-- Phase 1 of the `LiveResponsesTable` parser: split the text into lines
at newline characters that are not inside quotes.  A quote character
toggles the flag and is itself appended to the line. -/
def splitLinesAux : List Char → Bool → String → List String → List String
  | [], _, currentLine, lines => pushLine currentLine lines
  | c :: cs, insideQuote, currentLine, lines =>
    if c = '"' then
      splitLinesAux cs (!insideQuote) (currentLine.push c) lines
    else if c = '\n' ∧ insideQuote = false then
      splitLinesAux cs insideQuote "" (pushLine currentLine lines)
    else
      splitLinesAux cs insideQuote (currentLine.push c) lines

/-- Test of the dot of the JavaScript pattern used on each field: without
the dot-all flag the dot matches every character except LF, CR, LS and
PS. -/
def dotMatches (c : Char) : Bool :=
  !(c == '\n' || c == '\r' || c.toNat == 0x2028 || c.toNat == 0x2029)

/-- Embedding of the replacement of the anchored pattern
quote-capture-dot-star-quote by the capture: when the whole field is
wrapped in quotes and the inner text is matched by the dot star, the
wrapping quotes are removed, otherwise the field is unchanged. -/
def stripWrapQuotes (s : String) : String :=
  match s.data with
  | '"' :: rest =>
    match rest.getLast? with
    | some '"' =>
      if rest.dropLast.all dotMatches then String.mk rest.dropLast else s
    | _ => s
  | _ => s

/-- Field emission of the `LiveResponsesTable` parser: trim the field and
strip wrapping quotes. -/
def cleanField (currentField : String) : String :=
  stripWrapQuotes (jsTrim currentField)

/-- Phase 2 of the `LiveResponsesTable` parser: split one line into
fields at commas that are not inside quotes.  A quote character toggles
the flag and is itself appended to the field. -/
def parseFieldsAux : List Char → Bool → String → List String → List String
  | [], _, currentField, fields => fields ++ [cleanField currentField]
  | c :: cs, insideQuote, currentField, fields =>
    if c = '"' then
      parseFieldsAux cs (!insideQuote) (currentField.push c) fields
    else if c = ',' ∧ insideQuote = false then
      parseFieldsAux cs insideQuote "" (fields ++ [cleanField currentField])
    else
      parseFieldsAux cs insideQuote (currentField.push c) fields

/-- Parse one line into its list of fields. -/
def parseLine (line : String) : List String :=
  parseFieldsAux line.data false "" []

/-- Assignment into a JavaScript object used as a string map: an existing
key keeps its position and its value is replaced, a new key is appended. -/
def objInsert (obj : List (String × String)) (key v : String) :
    List (String × String) :=
  if obj.any (fun p => p.1 == key) then
    obj.map (fun p => if p.1 == key then (key, v) else p)
  else
    obj ++ [(key, v)]

/-- Phase 3 loop of the `LiveResponsesTable` parser: walk the headers
with their indices and assign `row[index] || emptyString` under each
header key. -/
def buildRowAux : List String → Nat → List String → List (String × String) →
    List (String × String)
  | [], _, _, obj => obj
  | header :: hs, index, row, obj =>
    buildRowAux hs (index + 1) row (objInsert obj header ((row.get? index).getD ""))

/-- Turn one data row into a record keyed by the headers; missing
trailing fields default to the empty string. -/
def buildRow (headers row : List String) : List (String × String) :=
  buildRowAux headers 0 row []

/-- The `parseCSV` function of the `LiveResponsesTable` component.  A
record (JavaScript object) is embedded as an insertion-ordered
association list with distinct keys. -/
def parseCSV (csvText : String) : List (List (String × String)) :=
  let lines := splitLinesAux csvText.data false "" []
  if lines = [] then []
  else
    let parsedLines := lines.map parseLine
    if parsedLines.length < 2 then []
    else
      parsedLines.tail.map (fun row => buildRow (parsedLines.headD []) row)

/-- Association list built by walking the headers with their indices
when no header repeats: each header is simply paired with the row value
at its index (defaulting to the empty string). -/
def simpleRow : List String → Nat → List String → List (String × String)
  | [], _, _ => []
  | header :: hs, index, row => (header, (row.get? index).getD "") :: simpleRow hs (index + 1) row

end LiveResponsesTable


namespace FormValidation

/-- The fixed set of named string fields collected by the backup mentor
form (`BackupMentorForm.tsx`). -/
structure FormData where
  email : String
  name : String
  major : String
  year : String
  mentorGoals : String
  hobbies : String

/-- Field errors: one optional error message per form field; a `none`
entry means the field is valid. -/
structure FieldErrors where
  email : Option String
  name : Option String
  major : Option String
  year : Option String
  mentorGoals : Option String
  hobbies : Option String

/-- Split a character list at every at-sign. -/
def splitAtSign : List Char → List (List Char)
  | [] => [[]]
  | '@' :: rest => [] :: splitAtSign rest
  | c :: rest =>
    match splitAtSign rest with
    | [] => [[c]]
    | p :: ps => (c :: p) :: ps

/-- Modelled from the spec: the institutional address pattern required of
the email field (a nonempty local part, one at-sign, and the specific
domain shown in the spec examples and in the form placeholder,
`rit.edu`). -/
def isInstitutionalEmail (s : String) : Bool :=
  match splitAtSign s.data with
  | [localPart, domain] => !localPart.isEmpty && domain == "rit.edu".data
  | _ => false

/-- Modelled from the spec: the per-field presence rule (every field must
be non-empty after trimming). -/
def requiredError (v : String) (msg : String) : Option String :=
  if jsTrim v = "" then some msg else none

/-- Modelled from the spec: the `validateForm` function of
`src/utils/formValidation`, which is imported by `BackupMentorForm.tsx`
but absent from the provided sources.  Per the spec it returns exactly
the entries for invalid fields, where every field must be non-empty
after trimming and the email field must additionally match the
institutional address pattern. -/
def validateForm (d : FormData) : FieldErrors where
  email :=
    if jsTrim d.email = "" then some "Email is required"
    else if !isInstitutionalEmail d.email then some "Please enter a valid RIT email"
    else none
  name := requiredError d.name "Name is required"
  major := requiredError d.major "Major is required"
  year := requiredError d.year "Year is required"
  mentorGoals := requiredError d.mentorGoals "This field is required"
  hobbies := requiredError d.hobbies "This field is required"

end FormValidation


section Refinement

/-- Modelled from the claim: the mapping that compares the two parsers.
The first row of a `CSVDataTable` table is treated as headers and every
later row becomes a record keyed positionally by those headers, with
missing trailing fields becoming empty strings — which is what
`LiveResponsesTable.buildRow` does. -/
def tableToRecords (t : List (List String)) : List (List (String × String)) :=
  match t with
  | [] => []
  | headers :: dataRows => dataRows.map (fun row => LiveResponsesTable.buildRow headers row)

/-- A character with no role in either parser: not a quote, not a comma,
not a line terminator. -/
def plainChar (c : Char) : Bool :=
  !(c == '"' || c == ',' || c == '\n' || c == '\r')

/-- A plain field: nonempty, made of plain characters only, and with no
leading or trailing ECMAScript whitespace. -/
def plainField (f : String) : Prop :=
  f ≠ "" ∧ f.data.all plainChar = true ∧
  jsWhitespace (f.data.headD ' ') = false ∧ jsWhitespace (f.data.getLastD ' ') = false

instance (f : String) : Decidable (plainField f) := by
  unfold plainField; infer_instance

/-- A plain table: every row is nonempty and consists of plain fields. -/
def plainTable (t : List (List String)) : Prop :=
  ∀ r ∈ t, r ≠ [] ∧ ∀ f ∈ r, plainField f

instance (t : List (List String)) : Decidable (plainTable t) := by
  unfold plainTable; infer_instance

/-- Character rendering of one row: fields joined by commas. -/
def renderRowChars : List String → List Char
  | [] => []
  | [f] => f.data
  | f :: rest => f.data ++ ',' :: renderRowChars rest

/-- Character rendering of a table: rows joined by newlines. -/
def renderTableChars : List (List String) → List Char
  | [] => []
  | [r] => renderRowChars r
  | r :: rest => renderRowChars r ++ '\n' :: renderTableChars rest

/-- One row rendered as simple CSV text. -/
def renderRow (r : List String) : String :=
  String.mk (renderRowChars r)

/-- A table rendered as simple CSV text. -/
def renderTable (t : List (List String)) : String :=
  String.mk (renderTableChars t)

end Refinement


/-! Helper lemmas about the string embedding. -/

theorem mk_data (s : String) : String.mk s.data = s := rfl

theorem push_data (s : String) (c : Char) : (s.push c).data = s.data ++ [c] := rfl

theorem ne_empty_of_data_ne_nil {s : String} (h : s.data ≠ []) : s ≠ "" := by
  intro he; exact h (congrArg String.data he)

theorem length_pos_of_ne_empty {s : String} (h : s ≠ "") : 0 < s.length := by
  cases s with
  | mk l =>
    cases l with
    | nil => exact absurd rfl h
    | cons c l => exact Nat.succ_pos l.length

namespace CSVDataTable

theorem parseAux_quote_escape (cs : List Char) (cur : String) (row : List String)
    (rows : List (List String)) :
    parseAux ('"' :: '"' :: cs) true cur row rows =
      parseAux cs true (cur.push '"') row rows := rfl

theorem parseAux_newline_outside (cs : List Char) (cur : String) (row : List String)
    (rows : List (List String)) :
    parseAux ('\n' :: cs) false cur row rows =
      parseAux cs false "" [] (endRow cur row rows) := by
  cases cs with
  | nil => rfl
  | cons c2 cs =>
    show parseAux ('\n' :: c2 :: cs) false cur row rows = _
    by_cases h2 : c2 = '\n' <;> simp [parseAux, h2]

theorem parseAux_crlf_outside (cs : List Char) (cur : String) (row : List String)
    (rows : List (List String)) :
    parseAux ('\r' :: '\n' :: cs) false cur row rows =
      parseAux cs false "" [] (endRow cur row rows) := rfl

theorem parseAux_newline_inside (cs : List Char) (cur : String) (row : List String)
    (rows : List (List String)) :
    parseAux ('\n' :: cs) true cur row rows =
      parseAux cs true (cur.push '\n') row rows := by
  cases cs <;> rfl

theorem parseAux_comma_inside (cs : List Char) (cur : String) (row : List String)
    (rows : List (List String)) :
    parseAux (',' :: cs) true cur row rows =
      parseAux cs true (cur.push ',') row rows := by
  cases cs <;> rfl

theorem parseAux_comma_outside (cs : List Char) (cur : String) (row : List String)
    (rows : List (List String)) :
    parseAux (',' :: cs) false cur row rows =
      parseAux cs false "" (row ++ [jsTrim cur]) rows := by
  cases cs <;> rfl

theorem parseAux_cons_inQuotes (c : Char) (hc : c ≠ '"') (cs : List Char) (cur : String)
    (row : List String) (rows : List (List String)) :
    parseAux (c :: cs) true cur row rows = parseAux cs true (cur.push c) row rows := by
  cases cs <;> simp [parseAux, hc]

theorem parseAux_cons_plain (c : Char) (hc : plainChar c = true) (cs : List Char)
    (q : Bool) (cur : String) (row : List String) (rows : List (List String)) :
    parseAux (c :: cs) q cur row rows = parseAux cs q (cur.push c) row rows := by
  have h1 : ¬ c = '"' := by intro h; subst h; simp [plainChar] at hc
  have h2 : ¬ c = ',' := by intro h; subst h; simp [plainChar] at hc
  have h3 : ¬ c = '\n' := by intro h; subst h; simp [plainChar] at hc
  have h4 : ¬ c = '\r' := by intro h; subst h; simp [plainChar] at hc
  cases cs <;> cases q <;> simp [parseAux, h1, h2, h3, h4]

theorem parseAux_append_plain (l : List Char) (hl : l.all plainChar = true)
    (cs : List Char) (q : Bool) (cur : String) (row : List String)
    (rows : List (List String)) :
    parseAux (l ++ cs) q cur row rows =
      parseAux cs q (String.mk (cur.data ++ l)) row rows := by
  induction l generalizing cur with
  | nil => simp [mk_data]
  | cons c l ih =>
    simp only [List.all_cons, Bool.and_eq_true] at hl
    rw [List.cons_append, parseAux_cons_plain c hl.1, ih hl.2]
    simp [push_data]

theorem parseAux_inQuotes_append (cs : List Char) (h : ∀ c ∈ cs, c ≠ '"')
    (cur : String) (row : List String) (rows : List (List String)) :
    parseAux cs true cur row rows = finishCSV (String.mk (cur.data ++ cs)) row rows := by
  induction cs generalizing cur with
  | nil => simp [parseAux, mk_data]
  | cons c cs ih =>
    rw [parseAux_cons_inQuotes c (h c (List.mem_cons_self c cs)),
      ih (fun d hd => h d (List.mem_cons_of_mem c hd))]
    simp [push_data]

theorem endRow_mem_content {cur : String} {row : List String}
    {rows : List (List String)} (h : ∀ r ∈ rows, rowHasContent r = true) :
    ∀ r ∈ endRow cur row rows, rowHasContent r = true := by
  intro r hr
  unfold endRow at hr
  split at hr
  · rcases List.mem_append.mp hr with hmem | hmem
    · exact h r hmem
    · rcases List.mem_singleton.mp hmem with rfl
      assumption
  · exact h r hr

theorem finishCSV_mem_content {cur : String} {row : List String}
    {rows : List (List String)} (h : ∀ r ∈ rows, rowHasContent r = true) :
    ∀ r ∈ finishCSV cur row rows, rowHasContent r = true := by
  intro r hr
  unfold finishCSV at hr
  split at hr
  · exact endRow_mem_content h r hr
  · exact h r hr

theorem parseAux_mem_content (cs : List Char) (q : Bool) (cur : String)
    (row : List String) (rows : List (List String)) :
    (∀ r ∈ rows, rowHasContent r = true) →
    ∀ r ∈ parseAux cs q cur row rows, rowHasContent r = true := by
  induction cs, q, cur, row, rows using parseAux.induct with
  | case1 q cur row rows =>
    exact fun h => finishCSV_mem_content h
  | case2 q cur row rows ih =>
    exact fun h => ih h
  | case3 c q cur row rows hc h2 ih =>
    obtain ⟨rfl, rfl⟩ := h2
    exact fun h => ih h
  | case4 c q cur row rows hc hc2 h3 ih =>
    obtain ⟨h31, rfl⟩ := h3
    rcases h31 with rfl | rfl
    · exact fun h => ih (endRow_mem_content h)
    · exact fun h => ih (endRow_mem_content h)
  | case5 c q cur row rows hc hc2 hc3 ih =>
    intro h
    simp only [parseAux]
    rw [if_neg hc, if_neg hc2, if_neg hc3]
    exact ih h
  | case6 c2 cs q cur row rows h6 ih =>
    obtain ⟨rfl, rfl⟩ := h6
    exact fun h => ih h
  | case7 c2 cs q cur row rows h7 ih =>
    intro h
    simp only [parseAux]
    rw [if_pos trivial, if_neg h7]
    exact ih h
  | case8 c c2 cs q cur row rows hc h2 ih =>
    obtain ⟨rfl, rfl⟩ := h2
    exact fun h => ih h
  | case9 c c2 cs q cur row rows hc hc2 h3 h4 ih =>
    obtain ⟨rfl, rfl⟩ := h4
    obtain ⟨-, rfl⟩ := h3
    exact fun h => ih (endRow_mem_content h)
  | case10 c c2 cs q cur row rows hc hc2 h3 h4 ih =>
    intro h
    simp only [parseAux]
    rw [if_neg hc, if_neg hc2, if_pos h3, if_neg h4]
    exact ih (endRow_mem_content h)
  | case11 c c2 cs q cur row rows hc hc2 hc3 ih =>
    intro h
    simp only [parseAux]
    rw [if_neg hc, if_neg hc2, if_neg hc3]
    exact ih h

end CSVDataTable

namespace LiveResponsesTable

theorem splitLinesAux_newline_outside (cs : List Char) (cur : String)
    (lines : List String) :
    splitLinesAux ('\n' :: cs) false cur lines =
      splitLinesAux cs false "" (pushLine cur lines) := rfl

theorem splitLinesAux_newline_inside (cs : List Char) (cur : String)
    (lines : List String) :
    splitLinesAux ('\n' :: cs) true cur lines =
      splitLinesAux cs true (cur.push '\n') lines := rfl

theorem parseFieldsAux_comma_inside (cs : List Char) (cur : String)
    (fields : List String) :
    parseFieldsAux (',' :: cs) true cur fields =
      parseFieldsAux cs true (cur.push ',') fields := rfl

theorem parseFieldsAux_comma_outside (cs : List Char) (cur : String)
    (fields : List String) :
    parseFieldsAux (',' :: cs) false cur fields =
      parseFieldsAux cs false "" (fields ++ [cleanField cur]) := rfl

end LiveResponsesTable

/-! Claim theorems for the CSV parsers. -/

/-- C1 (amended to the CSVDataTable parser): inside a quoted field, a
quote character immediately followed by a second quote emits exactly one
literal quote into the current field, keeps the inside-quoted-field flag
set, and consumes both characters; parsing `a,"b""c"` followed by a
newline yields the single row `["a", "b\"c"]`.  (The LiveResponsesTable
parser violates this; see the counterexample.) -/
theorem escaped_quote_emits_single_quote :
    (∀ (cs : List Char) (cur : String) (row : List String)
      (rows : List (List String)),
      CSVDataTable.parseAux ('"' :: '"' :: cs) true cur row rows =
        CSVDataTable.parseAux cs true (cur.push '"') row rows) ∧
    CSVDataTable.parseCSV "a,\"b\"\"c\"\n" = [["a", "b\"c"]] :=
  ⟨CSVDataTable.parseAux_quote_escape, by decide⟩

/-- C1 counterexample: the LiveResponsesTable `parseCSV` toggles the flag
on every quote and keeps a doubled quote inside a quoted field as two
literal quote characters, so the field reads `b""c` where the claim
requires the single-quote form `b"c`. -/
theorem liveTable_keeps_doubled_quote :
    LiveResponsesTable.parseCSV "x,h\na,\"b\"\"c\"" =
      [[("x", "a"), ("h", "b\"\"c")]] ∧ ("b\"\"c" : String) ≠ "b\"c" := by
  exact ⟨by decide, by decide⟩

/-- C2: a newline outside a quoted field, and a carriage-return-newline
pair outside a quoted field, terminate the current row, the pair being
consumed as one terminator; a newline inside a quoted field is appended
to the current field.  The same holds of the newline branch of the
LiveResponsesTable line splitter, and on carriage-return-newline input
both parsers produce no stray carriage return and no empty extra row. -/
theorem line_terminators_end_rows :
    (∀ (cs : List Char) (cur : String) (row : List String)
      (rows : List (List String)),
      CSVDataTable.parseAux ('\n' :: cs) false cur row rows =
        CSVDataTable.parseAux cs false "" [] (CSVDataTable.endRow cur row rows)) ∧
    (∀ (cs : List Char) (cur : String) (row : List String)
      (rows : List (List String)),
      CSVDataTable.parseAux ('\r' :: '\n' :: cs) false cur row rows =
        CSVDataTable.parseAux cs false "" [] (CSVDataTable.endRow cur row rows)) ∧
    (∀ (cs : List Char) (cur : String) (row : List String)
      (rows : List (List String)),
      CSVDataTable.parseAux ('\n' :: cs) true cur row rows =
        CSVDataTable.parseAux cs true (cur.push '\n') row rows) ∧
    (∀ (cs : List Char) (cur : String) (lines : List String),
      LiveResponsesTable.splitLinesAux ('\n' :: cs) false cur lines =
        LiveResponsesTable.splitLinesAux cs false ""
          (LiveResponsesTable.pushLine cur lines)) ∧
    (∀ (cs : List Char) (cur : String) (lines : List String),
      LiveResponsesTable.splitLinesAux ('\n' :: cs) true cur lines =
        LiveResponsesTable.splitLinesAux cs true (cur.push '\n') lines) ∧
    CSVDataTable.parseCSV "a,b\r\nc,d\r\n" = [["a", "b"], ["c", "d"]] ∧
    LiveResponsesTable.parseCSV "h1,h2\r\na,b\r\n" = [[("h1", "a"), ("h2", "b")]] :=
  ⟨CSVDataTable.parseAux_newline_outside, CSVDataTable.parseAux_crlf_outside,
    CSVDataTable.parseAux_newline_inside,
    LiveResponsesTable.splitLinesAux_newline_outside,
    LiveResponsesTable.splitLinesAux_newline_inside, by decide, by decide⟩

/-- C3: a comma inside a quoted field is appended to the current field
and does not separate fields; a comma outside a quoted field ends the
current field.  This holds of both parsers, and parsing `a,"b,c"`
followed by a newline yields the single row `["a", "b,c"]`. -/
theorem comma_only_separates_outside_quotes :
    (∀ (cs : List Char) (cur : String) (row : List String)
      (rows : List (List String)),
      CSVDataTable.parseAux (',' :: cs) true cur row rows =
        CSVDataTable.parseAux cs true (cur.push ',') row rows) ∧
    (∀ (cs : List Char) (cur : String) (row : List String)
      (rows : List (List String)),
      CSVDataTable.parseAux (',' :: cs) false cur row rows =
        CSVDataTable.parseAux cs false "" (row ++ [jsTrim cur]) rows) ∧
    (∀ (cs : List Char) (cur : String) (fields : List String),
      LiveResponsesTable.parseFieldsAux (',' :: cs) true cur fields =
        LiveResponsesTable.parseFieldsAux cs true (cur.push ',') fields) ∧
    (∀ (cs : List Char) (cur : String) (fields : List String),
      LiveResponsesTable.parseFieldsAux (',' :: cs) false cur fields =
        LiveResponsesTable.parseFieldsAux cs false ""
          (fields ++ [LiveResponsesTable.cleanField cur])) ∧
    CSVDataTable.parseCSV "a,\"b,c\"\n" = [["a", "b,c"]] :=
  ⟨CSVDataTable.parseAux_comma_inside, CSVDataTable.parseAux_comma_outside,
    LiveResponsesTable.parseFieldsAux_comma_inside,
    LiveResponsesTable.parseFieldsAux_comma_outside, by decide⟩

/-- C4: every row of the CSVDataTable parser output contains a field of
positive length, so a row whose fields are all empty or whitespace-only
after trimming never appears; and the empty input yields the empty
table. -/
theorem blank_rows_dropped :
    (∀ (text : String), ∀ row ∈ CSVDataTable.parseCSV text,
      row.any (fun cell => decide (0 < cell.length)) = true) ∧
    CSVDataTable.parseCSV "" = [] :=
  ⟨fun text =>
    CSVDataTable.parseAux_mem_content text.data false "" [] []
      (fun r hr => absurd hr (List.not_mem_nil r)),
  by decide⟩

/-- C4 witness: the theorem applied to the input `a,b` with a newline and
to its output row. -/
theorem blank_rows_dropped_witness :
    (["a", "b"].any (fun cell => decide (0 < cell.length)) = true) :=
  blank_rows_dropped.1 "a,b\n" ["a", "b"] (by decide)

/-- C5: the CSVDataTable parser is a total function; once inside a
quoted field, if no further quote occurs the whole remaining text is
appended to the current field and handed to the end-of-input step, and
an input with no trailing terminator still emits the final field and
row. -/
theorem parser_total_and_graceful :
    (∀ (cs : List Char), (∀ c ∈ cs, c ≠ '"') →
      ∀ (cur : String) (row : List String) (rows : List (List String)),
      CSVDataTable.parseAux cs true cur row rows =
        CSVDataTable.finishCSV (String.mk (cur.data ++ cs)) row rows) ∧
    CSVDataTable.parseCSV "a,\"bc" = [["a", "bc"]] ∧
    CSVDataTable.parseCSV "x,y" = [["x", "y"]] :=
  ⟨fun cs h cur row rows => CSVDataTable.parseAux_inQuotes_append cs h cur row rows,
    by decide, by decide⟩

/-- C5 witness: the unterminated-quote clause applied to the concrete
remaining text `bc` with current field `a`. -/
theorem parser_total_and_graceful_witness :
    CSVDataTable.parseAux ['b', 'c'] true "a" [] [] =
      CSVDataTable.finishCSV (String.mk ("a".data ++ ['b', 'c'])) [] [] :=
  parser_total_and_graceful.1 ['b', 'c'] (by decide) "a" [] []

/-- C9: parsing `a,b` newline `c,d` yields exactly the two rows
`["a", "b"]` and `["c", "d"]`. -/
theorem parse_two_simple_rows :
    CSVDataTable.parseCSV "a,b\nc,d" = [["a", "b"], ["c", "d"]] := by decide

namespace LiveResponsesTable

theorem objInsert_of_not_mem {obj : List (String × String)} {key v : String}
    (h : obj.any (fun p => p.1 == key) = false) :
    objInsert obj key v = obj ++ [(key, v)] := by
  simp only [objInsert, h]
  simp

theorem buildRowAux_eq_append (hs : List String) (idx : Nat) (row : List String)
    (obj : List (String × String)) (hnd : hs.Nodup)
    (hdisj : ∀ p ∈ obj, p.1 ∉ hs) :
    buildRowAux hs idx row obj = obj ++ simpleRow hs idx row := by
  induction hs generalizing idx obj with
  | nil => simp [buildRowAux, simpleRow]
  | cons header hs ih =>
    have hany : obj.any (fun p => p.1 == header) = false := by
      rw [List.any_eq_false]
      intro p hp
      simp only [beq_iff_eq]
      exact fun he => hdisj p hp (he ▸ List.mem_cons_self header hs)
    rw [buildRowAux, objInsert_of_not_mem hany,
      ih (idx + 1) (obj ++ [(header, (row.get? idx).getD "")])
        (List.nodup_cons.mp hnd).2
        (by
          intro p hp
          rcases List.mem_append.mp hp with hmem | hmem
          · exact fun hin => hdisj p hmem (List.mem_cons_of_mem header hin)
          · rcases List.mem_singleton.mp hmem with rfl
            exact (List.nodup_cons.mp hnd).1)]
    simp [simpleRow]

theorem simpleRow_lookup (hs : List String) (hnd : hs.Nodup) (idx : Nat)
    (row : List String) (i : Nat) (hi : i < hs.length) :
    (simpleRow hs idx row).lookup (hs.get ⟨i, hi⟩) =
      some ((row.get? (idx + i)).getD "") := by
  induction hs generalizing idx i with
  | nil => exact absurd hi (Nat.not_lt_zero i)
  | cons header hs ih =>
    cases i with
    | zero =>
      simp [simpleRow, List.lookup]
    | succ i =>
      have hmem : (header :: hs).get ⟨i + 1, hi⟩ ∈ hs := by
        have hg := List.get_mem hs i (Nat.lt_of_succ_lt_succ hi)
        exact hg
      have hne : ((header :: hs).get ⟨i + 1, hi⟩ == header) = false := by
        rw [beq_eq_false_iff_ne]
        intro he
        exact (List.nodup_cons.mp hnd).1 (he ▸ hmem)
      show (((header, (row.get? idx).getD "")) :: simpleRow hs (idx + 1) row).lookup _ = _
      rw [List.lookup_cons]
      simp only [hne]
      have harith : idx + 1 + i = idx + (i + 1) := by omega
      have := ih (List.nodup_cons.mp hnd).2 (idx + 1) i (Nat.lt_of_succ_lt_succ hi)
      rw [harith] at this
      exact this

theorem buildRow_lookup (headers row : List String) (hnd : headers.Nodup)
    (i : Nat) (hi : i < headers.length) :
    (buildRow headers row).lookup (headers.get ⟨i, hi⟩) =
      some ((row.get? i).getD "") := by
  rw [buildRow, buildRowAux_eq_append headers 0 row [] hnd (by simp)]
  simpa using simpleRow_lookup headers hnd 0 row i hi

end LiveResponsesTable

/-- C6 counterexample: the claim fails on a parsed table with duplicate
headers.  Parsing `a,a` newline `x` gives a header row of two fields and
a data row of one field, and the record construction assigns the missing
trailing default over the same key, so the record value under `a` is the
empty string: the field `x`, present at position 0 of the data row, does
not keep its value. -/
theorem duplicate_header_overwrites_present_field :
    LiveResponsesTable.parseCSV "a,a\nx" = [[("a", "")]] ∧
    (LiveResponsesTable.buildRow ["a", "a"] ["x"]).lookup "a" = some "" ∧
    ("" : String) ≠ "x" := by
  exact ⟨by decide, by decide, by decide⟩

/-- C6 (amended to distinct headers): in a record built by the
LiveResponsesTable parser from a header row with distinct headers and a
data row, looking up a header whose index is beyond the data row yields
the empty string, not an absent entry, and looking up a header whose
index is within the data row yields exactly the field at that position.
(With duplicate headers the later assignment overwrites the present
field; see the counterexample.) -/
theorem missing_trailing_fields_default_empty (headers row : List String)
    (hnd : headers.Nodup) :
    (∀ (i : Nat) (hi : i < headers.length), row.length ≤ i →
      (LiveResponsesTable.buildRow headers row).lookup (headers.get ⟨i, hi⟩) =
        some "") ∧
    (∀ (i : Nat) (hi : i < headers.length) (hr : i < row.length),
      (LiveResponsesTable.buildRow headers row).lookup (headers.get ⟨i, hi⟩) =
        some (row.get ⟨i, hr⟩)) := by
  constructor
  · intro i hi hle
    rw [LiveResponsesTable.buildRow_lookup headers row hnd i hi,
      List.get?_eq_none.mpr hle]
    rfl
  · intro i hi hr
    rw [LiveResponsesTable.buildRow_lookup headers row hnd i hi,
      List.get?_eq_get hr]
    rfl

/-- C6 witness: headers `["a", "b"]` with the single-field data row
`["x"]`; the missing field under `b` is the empty string and the present
field under `a` keeps its value. -/
theorem missing_trailing_fields_default_empty_witness :
    (LiveResponsesTable.buildRow ["a", "b"] ["x"]).lookup "b" = some "" ∧
    (LiveResponsesTable.buildRow ["a", "b"] ["x"]).lookup "a" = some "x" :=
  ⟨(missing_trailing_fields_default_empty ["a", "b"] ["x"] (by decide)).1 1
      (by decide) (by decide),
    (missing_trailing_fields_default_empty ["a", "b"] ["x"] (by decide)).2 0
      (by decide) (by decide)⟩

/-! Claim theorems for the form validator (modelled from the spec). -/

/-- C7: the validator returns an error entry for a field exactly when
the field is invalid — empty after trimming, or for the email field also
failing the institutional pattern; and a form whose name is blank while
every other field is valid gets a name error and no other entries. -/
theorem validateForm_errors_iff_invalid (d : FormValidation.FormData) :
    ((FormValidation.validateForm d).name.isSome ↔ jsTrim d.name = "") ∧
    ((FormValidation.validateForm d).email.isSome ↔
      (jsTrim d.email = "" ∨ FormValidation.isInstitutionalEmail d.email = false)) ∧
    ((FormValidation.validateForm d).major.isSome ↔ jsTrim d.major = "") ∧
    ((FormValidation.validateForm d).year.isSome ↔ jsTrim d.year = "") ∧
    ((FormValidation.validateForm d).mentorGoals.isSome ↔
      jsTrim d.mentorGoals = "") ∧
    ((FormValidation.validateForm d).hobbies.isSome ↔ jsTrim d.hobbies = "") ∧
    (jsTrim d.name = "" → jsTrim d.email ≠ "" →
      FormValidation.isInstitutionalEmail d.email = true → jsTrim d.major ≠ "" →
      jsTrim d.year ≠ "" → jsTrim d.mentorGoals ≠ "" → jsTrim d.hobbies ≠ "" →
      (FormValidation.validateForm d).name.isSome = true ∧
      (FormValidation.validateForm d).email = none ∧
      (FormValidation.validateForm d).major = none ∧
      (FormValidation.validateForm d).year = none ∧
      (FormValidation.validateForm d).mentorGoals = none ∧
      (FormValidation.validateForm d).hobbies = none) := by
  refine ⟨?_, ?_, ?_, ?_, ?_, ?_, ?_⟩
  · by_cases h : jsTrim d.name = "" <;>
      simp [FormValidation.validateForm, FormValidation.requiredError, h]
  · by_cases h1 : jsTrim d.email = "" <;>
      by_cases h2 : FormValidation.isInstitutionalEmail d.email <;>
      simp [FormValidation.validateForm, h1, h2]
  · by_cases h : jsTrim d.major = "" <;>
      simp [FormValidation.validateForm, FormValidation.requiredError, h]
  · by_cases h : jsTrim d.year = "" <;>
      simp [FormValidation.validateForm, FormValidation.requiredError, h]
  · by_cases h : jsTrim d.mentorGoals = "" <;>
      simp [FormValidation.validateForm, FormValidation.requiredError, h]
  · by_cases h : jsTrim d.hobbies = "" <;>
      simp [FormValidation.validateForm, FormValidation.requiredError, h]
  · intro hn he1 he2 hm hy hg hh
    simp [FormValidation.validateForm, FormValidation.requiredError,
      hn, he1, he2, hm, hy, hg, hh]

/-- C7 witness: a form with a blank name and all other fields valid has
a name error and no other entries. -/
theorem validateForm_errors_iff_invalid_witness :
    (FormValidation.validateForm
      ⟨"abc1234@rit.edu", "", "CS", "Second Year", "goals", "games"⟩).name.isSome =
      true ∧
    (FormValidation.validateForm
      ⟨"abc1234@rit.edu", "", "CS", "Second Year", "goals", "games"⟩).email = none ∧
    (FormValidation.validateForm
      ⟨"abc1234@rit.edu", "", "CS", "Second Year", "goals", "games"⟩).major = none ∧
    (FormValidation.validateForm
      ⟨"abc1234@rit.edu", "", "CS", "Second Year", "goals", "games"⟩).year = none ∧
    (FormValidation.validateForm
      ⟨"abc1234@rit.edu", "", "CS", "Second Year", "goals", "games"⟩).mentorGoals =
      none ∧
    (FormValidation.validateForm
      ⟨"abc1234@rit.edu", "", "CS", "Second Year", "goals", "games"⟩).hobbies =
      none :=
  (validateForm_errors_iff_invalid
    ⟨"abc1234@rit.edu", "", "CS", "Second Year", "goals", "games"⟩).2.2.2.2.2.2
    (by decide) (by decide) (by decide) (by decide) (by decide) (by decide)
    (by decide)

/-- C8: whatever the other fields hold, an email equal to
`abc1234@rit.edu` produces no email error, and an email equal to
`abc1234@gmail.com` produces an email error. -/
theorem validateForm_email_domain_rule (d : FormValidation.FormData) :
    (d.email = "abc1234@rit.edu" → (FormValidation.validateForm d).email = none) ∧
    (d.email = "abc1234@gmail.com" →
      (FormValidation.validateForm d).email.isSome = true) := by
  obtain ⟨e, n, m, y, g, hb⟩ := d
  constructor
  · intro h
    cases h
    rfl
  · intro h
    cases h
    rfl

/-- C8 witness: the theorem applied to two concrete forms differing only
in the email field. -/
theorem validateForm_email_domain_rule_witness :
    (FormValidation.validateForm
      ⟨"abc1234@rit.edu", "n", "m", "y", "g", "h"⟩).email = none ∧
    (FormValidation.validateForm
      ⟨"abc1234@gmail.com", "n", "m", "y", "g", "h"⟩).email.isSome = true :=
  ⟨(validateForm_email_domain_rule
      ⟨"abc1234@rit.edu", "n", "m", "y", "g", "h"⟩).1 rfl,
    (validateForm_email_domain_rule
      ⟨"abc1234@gmail.com", "n", "m", "y", "g", "h"⟩).2 rfl⟩

/-! Helper lemmas for the parser-agreement theorem. -/

theorem data_ne_nil_of_ne_empty {s : String} (h : s ≠ "") : s.data ≠ [] := by
  intro hd
  exact h (by rw [← mk_data s, hd])

theorem plainChar_spec {c : Char} (h : plainChar c = true) :
    ¬c = '"' ∧ ¬c = ',' ∧ ¬c = '\n' ∧ ¬c = '\r' := by
  refine ⟨?_, ?_, ?_, ?_⟩ <;> intro h1 <;> subst h1 <;> simp [plainChar] at h

theorem dropWhile_eq_self_of_head (p : Char → Bool) (l : List Char)
    (h : ∀ c, l.head? = some c → p c = false) : l.dropWhile p = l := by
  cases l with
  | nil => rfl
  | cons a l => simp [List.dropWhile_cons, h a rfl]

theorem jsTrim_eq_self_of_edges (l : List Char)
    (hhead : ∀ c, l.head? = some c → jsWhitespace c = false)
    (hlast : ∀ c, l.getLast? = some c → jsWhitespace c = false) :
    jsTrim (String.mk l) = String.mk l := by
  show String.mk (((l.dropWhile jsWhitespace).reverse.dropWhile jsWhitespace).reverse) = _
  rw [dropWhile_eq_self_of_head _ _ hhead,
    dropWhile_eq_self_of_head _ _
      (fun c hc => hlast c (by rwa [List.head?_reverse] at hc)),
    List.reverse_reverse]

theorem plainField_head {f : String} (hf : plainField f) :
    ∀ c, f.data.head? = some c → jsWhitespace c = false := by
  intro c hc
  cases hdata : f.data with
  | nil => rw [hdata] at hc; cases hc
  | cons a l =>
    rw [hdata] at hc
    cases hc
    have h1 := hf.2.2.1
    rw [hdata] at h1
    exact h1

theorem plainField_last {f : String} (hf : plainField f) :
    ∀ c, f.data.getLast? = some c → jsWhitespace c = false := by
  intro c hc
  have h2 := hf.2.2.2
  rw [List.getLastD_eq_getLast?, hc] at h2
  exact h2

theorem plainField_mem_plain {f : String} (hf : plainField f) :
    ∀ c ∈ f.data, plainChar c = true :=
  List.all_eq_true.mp hf.2.1

theorem jsTrim_eq_self_of_plainField {f : String} (hf : plainField f) :
    jsTrim f = f := by
  rw [← mk_data f]
  exact jsTrim_eq_self_of_edges f.data (plainField_head hf) (plainField_last hf)

theorem stripWrapQuotes_eq_self {f : String}
    (h : ∀ c, f.data.head? = some c → ¬c = '"') : LiveResponsesTable.stripWrapQuotes f = f := by
  unfold LiveResponsesTable.stripWrapQuotes
  split
  · rename_i rest heq
    exact absurd rfl (h '"' (by rw [heq]; rfl))
  · rfl

theorem cleanField_eq_self {f : String} (hf : plainField f) :
    LiveResponsesTable.cleanField f = f := by
  rw [LiveResponsesTable.cleanField, jsTrim_eq_self_of_plainField hf]
  refine stripWrapQuotes_eq_self ?_
  intro c hc
  cases hdata : f.data with
  | nil => rw [hdata] at hc; cases hc
  | cons a l =>
    rw [hdata] at hc
    cases hc
    have hmem : c ∈ f.data := by rw [hdata]; exact List.mem_cons_self c l
    exact (plainChar_spec (plainField_mem_plain hf c hmem)).1

theorem splitLinesAux_cons_line (c : Char) (h1 : ¬c = '"') (h2 : ¬c = '\n')
    (cs : List Char) (cur : String) (lines : List String) :
    LiveResponsesTable.splitLinesAux (c :: cs) false cur lines =
      LiveResponsesTable.splitLinesAux cs false (cur.push c) lines := by
  simp only [LiveResponsesTable.splitLinesAux]
  rw [if_neg h1, if_neg (fun hx => h2 hx.1)]

theorem splitLinesAux_append (l : List Char) (h : ∀ c ∈ l, ¬c = '"' ∧ ¬c = '\n')
    (cs : List Char) (cur : String) (lines : List String) :
    LiveResponsesTable.splitLinesAux (l ++ cs) false cur lines =
      LiveResponsesTable.splitLinesAux cs false (String.mk (cur.data ++ l)) lines := by
  induction l generalizing cur with
  | nil => simp [mk_data]
  | cons c l ih =>
    have hc := h c (List.mem_cons_self c l)
    rw [List.cons_append, splitLinesAux_cons_line c hc.1 hc.2,
      ih (fun d hd => h d (List.mem_cons_of_mem c hd))]
    simp [push_data]

theorem parseFieldsAux_cons_plain (c : Char) (h1 : ¬c = '"') (h2 : ¬c = ',')
    (cs : List Char) (cur : String) (fields : List String) :
    LiveResponsesTable.parseFieldsAux (c :: cs) false cur fields =
      LiveResponsesTable.parseFieldsAux cs false (cur.push c) fields := by
  simp only [LiveResponsesTable.parseFieldsAux]
  rw [if_neg h1, if_neg (fun hx => h2 hx.1)]

theorem parseFieldsAux_append (l : List Char) (h : ∀ c ∈ l, ¬c = '"' ∧ ¬c = ',')
    (cs : List Char) (cur : String) (fields : List String) :
    LiveResponsesTable.parseFieldsAux (l ++ cs) false cur fields =
      LiveResponsesTable.parseFieldsAux cs false (String.mk (cur.data ++ l)) fields := by
  induction l generalizing cur with
  | nil => simp [mk_data]
  | cons c l ih =>
    have hc := h c (List.mem_cons_self c l)
    rw [List.cons_append, parseFieldsAux_cons_plain c hc.1 hc.2,
      ih (fun d hd => h d (List.mem_cons_of_mem c hd))]
    simp [push_data]


theorem renderRowChars_cons_cons (f g : String) (r : List String) :
    renderRowChars (f :: g :: r) = f.data ++ ',' :: renderRowChars (g :: r) := rfl

theorem renderRowChars_append_cons (f : String) (init : List String) (last : String) :
    renderRowChars ((f :: init) ++ [last]) =
      f.data ++ ',' :: renderRowChars (init ++ [last]) := by
  cases init <;> rfl

theorem renderRowChars_line_chars (r : List String) (h : ∀ f ∈ r, plainField f) :
    ∀ c ∈ renderRowChars r, ¬c = '"' ∧ ¬c = '\n' := by
  induction r with
  | nil => intro c hc; cases hc
  | cons f r ih =>
    cases r with
    | nil =>
      intro c hc
      have hp := plainChar_spec (plainField_mem_plain (h f (by simp)) c hc)
      exact ⟨hp.1, hp.2.2.1⟩
    | cons g r2 =>
      intro c hc
      rw [renderRowChars_cons_cons] at hc
      rcases List.mem_append.mp hc with hm | hm
      · have hp := plainChar_spec (plainField_mem_plain (h f (by simp)) c hm)
        exact ⟨hp.1, hp.2.2.1⟩
      · rcases List.mem_cons.mp hm with rfl | hm2
        · exact ⟨by decide, by decide⟩
        · exact ih (fun d hd => h d (List.mem_cons_of_mem f hd)) c hm2

theorem renderRowChars_ne_nil (r : List String) (hr : r ≠ [])
    (h : ∀ f ∈ r, plainField f) : renderRowChars r ≠ [] := by
  cases r with
  | nil => exact absurd rfl hr
  | cons f r =>
    cases r with
    | nil => exact data_ne_nil_of_ne_empty (h f (by simp)).1
    | cons g r2 =>
      rw [renderRowChars_cons_cons]
      simp

theorem renderRowChars_head (r : List String) (h : ∀ f ∈ r, plainField f) :
    ∀ c, (renderRowChars r).head? = some c → jsWhitespace c = false := by
  cases r with
  | nil => intro c hc; cases hc
  | cons f r =>
    cases r with
    | nil => exact fun c hc => plainField_head (h f (by simp)) c hc
    | cons g r2 =>
      intro c hc
      rw [renderRowChars_cons_cons, List.head?_append] at hc
      cases hfd : f.data.head? with
      | none =>
        exact absurd hfd (by
          simp only [List.head?_eq_none_iff]
          exact data_ne_nil_of_ne_empty (h f (by simp)).1)
      | some a =>
        rw [hfd] at hc
        cases hc
        exact plainField_head (h f (by simp)) c hfd

theorem renderRowChars_last (r : List String) (h : ∀ f ∈ r, plainField f) :
    ∀ c, (renderRowChars r).getLast? = some c → jsWhitespace c = false := by
  induction r with
  | nil => intro c hc; cases hc
  | cons f r ih =>
    cases r with
    | nil => exact fun c hc => plainField_last (h f (by simp)) c hc
    | cons g r2 =>
      intro c hc
      rw [renderRowChars_cons_cons, List.getLast?_append] at hc
      have hrg : renderRowChars (g :: r2) ≠ [] :=
        renderRowChars_ne_nil (g :: r2) (by simp)
          (fun d hd => h d (List.mem_cons_of_mem f hd))
      have hcons : (',' :: renderRowChars (g :: r2)).getLast? =
          (renderRowChars (g :: r2)).getLast? := by
        cases hx : renderRowChars (g :: r2) with
        | nil => exact absurd hx hrg
        | cons y ys => exact List.getLast?_cons_cons
      rw [hcons] at hc
      cases hgl : (renderRowChars (g :: r2)).getLast? with
      | none =>
        exact absurd (List.getLast?_eq_none_iff.mp hgl) hrg
      | some a =>
        rw [hgl] at hc
        cases hc
        exact ih (fun d hd => h d (List.mem_cons_of_mem f hd)) c hgl

theorem renderRow_trim (r : List String)
    (h : ∀ f ∈ r, plainField f) : jsTrim (renderRow r) = renderRow r :=
  jsTrim_eq_self_of_edges (renderRowChars r) (renderRowChars_head r h)
    (renderRowChars_last r h)

theorem renderRow_ne_empty (r : List String) (hr : r ≠ [])
    (h : ∀ f ∈ r, plainField f) : renderRow r ≠ "" :=
  ne_empty_of_data_ne_nil (renderRowChars_ne_nil r hr h)

theorem empty_data : ("" : String).data = [] := rfl

theorem parseFieldsAux_renderRow (init : List String) (last : String)
    (h : ∀ f ∈ init ++ [last], plainField f) (fields : List String) :
    LiveResponsesTable.parseFieldsAux (renderRowChars (init ++ [last])) false "" fields =
      fields ++ (init ++ [last]) := by
  induction init generalizing fields with
  | nil =>
    have hlast := h last (by simp)
    have hchars : ∀ c ∈ last.data, ¬c = '"' ∧ ¬c = ',' := by
      intro c hc
      have hp := plainChar_spec (plainField_mem_plain hlast c hc)
      exact ⟨hp.1, hp.2.1⟩
    show LiveResponsesTable.parseFieldsAux last.data false "" fields = _
    rw [← List.append_nil last.data, parseFieldsAux_append last.data hchars [] "" fields]
    show fields ++ [LiveResponsesTable.cleanField (String.mk ([] ++ last.data))] = _
    rw [List.nil_append, mk_data, cleanField_eq_self hlast]
    simp
  | cons f init ih =>
    have hf := h f (by simp)
    have hfchars : ∀ c ∈ f.data, ¬c = '"' ∧ ¬c = ',' := by
      intro c hc
      have hp := plainChar_spec (plainField_mem_plain hf c hc)
      exact ⟨hp.1, hp.2.1⟩
    rw [renderRowChars_append_cons, List.cons_append]
    rw [parseFieldsAux_append f.data hfchars _ "" fields]
    show LiveResponsesTable.parseFieldsAux
      (',' :: renderRowChars (init ++ [last])) false (String.mk ([] ++ f.data)) fields = _
    rw [List.nil_append, mk_data, LiveResponsesTable.parseFieldsAux_comma_outside,
      cleanField_eq_self hf,
      ih (fun d hd => h d (List.mem_cons_of_mem f hd)) (fields ++ [f])]
    simp

theorem parseLine_renderRow (r : List String) (hr : r ≠ [])
    (h : ∀ f ∈ r, plainField f) : LiveResponsesTable.parseLine (renderRow r) = r := by
  have hd := List.dropLast_append_getLast hr
  show LiveResponsesTable.parseFieldsAux (renderRowChars r) false "" [] = r
  conv_lhs => rw [← hd]
  rw [parseFieldsAux_renderRow r.dropLast (r.getLast hr) (by rw [hd]; exact h) []]
  rw [List.nil_append, hd]

theorem pushLine_renderRow (r : List String) (hr : r ≠ [])
    (h : ∀ f ∈ r, plainField f) (lines : List String) :
    LiveResponsesTable.pushLine (renderRow r) lines = lines ++ [renderRow r] := by
  simp only [LiveResponsesTable.pushLine, renderRow_trim r h]
  rw [if_pos (renderRow_ne_empty r hr h)]

theorem splitLinesAux_renderTable (t : List (List String)) (ht : plainTable t)
    (lines : List String) :
    LiveResponsesTable.splitLinesAux (renderTableChars t) false "" lines =
      lines ++ t.map renderRow := by
  induction t generalizing lines with
  | nil =>
    show LiveResponsesTable.pushLine "" lines = lines ++ []
    have hempty : jsTrim "" = "" := rfl
    simp [LiveResponsesTable.pushLine, hempty]
  | cons r t ih =>
    obtain ⟨hrne, hrf⟩ := ht r (by simp)
    have hlc := renderRowChars_line_chars r hrf
    cases t with
    | nil =>
      show LiveResponsesTable.splitLinesAux (renderRowChars r) false "" lines = _
      rw [← List.append_nil (renderRowChars r), splitLinesAux_append _ hlc [] "" lines]
      show LiveResponsesTable.pushLine (String.mk ([] ++ renderRowChars r)) lines = _
      rw [List.nil_append]
      exact pushLine_renderRow r hrne hrf lines
    | cons r2 t2 =>
      show LiveResponsesTable.splitLinesAux
        (renderRowChars r ++ '\n' :: renderTableChars (r2 :: t2)) false "" lines = _
      rw [splitLinesAux_append _ hlc _ "" lines]
      show LiveResponsesTable.splitLinesAux (renderTableChars (r2 :: t2)) false ""
        (LiveResponsesTable.pushLine (String.mk ([] ++ renderRowChars r)) lines) = _
      rw [List.nil_append]
      have hpush := pushLine_renderRow r hrne hrf lines
      rw [show String.mk (renderRowChars r) = renderRow r from rfl, hpush,
        ih (fun x hx => ht x (List.mem_cons_of_mem r hx)) (lines ++ [renderRow r])]
      simp

theorem endRow_plain (last : String) (hne : last ≠ "") (htrim : jsTrim last = last)
    (init : List String) (rows : List (List String)) :
    CSVDataTable.endRow last init rows = rows ++ [init ++ [last]] := by
  have hc : (init ++ [last]).any (fun cell => decide (0 < cell.length)) = true := by
    rw [List.any_append]
    simp [decide_eq_true (length_pos_of_ne_empty hne)]
  simp only [CSVDataTable.endRow, htrim, hc, if_true]

theorem parseAux_renderRow (init : List String) (last : String)
    (h : ∀ f ∈ init ++ [last], plainField f) (cs : List Char) (acc : List String)
    (rows : List (List String)) :
    CSVDataTable.parseAux (renderRowChars (init ++ [last]) ++ cs) false "" acc rows =
      CSVDataTable.parseAux cs false last (acc ++ init) rows := by
  induction init generalizing acc with
  | nil =>
    have hlast := h last (by simp)
    show CSVDataTable.parseAux (last.data ++ cs) false "" acc rows = _
    rw [CSVDataTable.parseAux_append_plain last.data hlast.2.1 cs false "" acc rows]
    show CSVDataTable.parseAux cs false (String.mk ([] ++ last.data)) acc rows = _
    rw [List.nil_append, mk_data, List.append_nil]
  | cons f init ih =>
    have hf := h f (by simp)
    rw [renderRowChars_append_cons, List.append_assoc, List.cons_append]
    rw [CSVDataTable.parseAux_append_plain f.data hf.2.1 _ false "" acc rows]
    show CSVDataTable.parseAux
      (',' :: (renderRowChars (init ++ [last]) ++ cs)) false
      (String.mk ([] ++ f.data)) acc rows = _
    rw [List.nil_append, mk_data, CSVDataTable.parseAux_comma_outside,
      jsTrim_eq_self_of_plainField hf,
      ih (fun d hd => h d (List.mem_cons_of_mem f hd)) (acc ++ [f])]
    simp

theorem parseAux_renderTable (t : List (List String)) (ht : plainTable t)
    (rows : List (List String)) :
    CSVDataTable.parseAux (renderTableChars t) false "" [] rows = rows ++ t := by
  induction t generalizing rows with
  | nil =>
    show CSVDataTable.finishCSV "" [] rows = rows ++ []
    simp [CSVDataTable.finishCSV]
  | cons r t ih =>
    obtain ⟨hrne, hrf⟩ := ht r (by simp)
    have hd := List.dropLast_append_getLast hrne
    have hlast : plainField (r.getLast hrne) := hrf _ (List.getLast_mem hrne)
    cases t with
    | nil =>
      show CSVDataTable.parseAux (renderRowChars r) false "" [] rows = rows ++ [r]
      conv_lhs => rw [← hd, ← List.append_nil (renderRowChars (r.dropLast ++ [r.getLast hrne]))]
      rw [parseAux_renderRow r.dropLast (r.getLast hrne) (by rw [hd]; exact hrf) [] [] rows]
      show CSVDataTable.finishCSV (r.getLast hrne) ([] ++ r.dropLast) rows = rows ++ [r]
      rw [List.nil_append, CSVDataTable.finishCSV, if_pos (Or.inl hlast.1),
        endRow_plain _ hlast.1 (jsTrim_eq_self_of_plainField hlast) r.dropLast rows, hd]
    | cons r2 t2 =>
      show CSVDataTable.parseAux
        (renderRowChars r ++ '\n' :: renderTableChars (r2 :: t2)) false "" [] rows = _
      conv_lhs => rw [← hd]
      rw [parseAux_renderRow r.dropLast (r.getLast hrne) (by rw [hd]; exact hrf) _ [] rows]
      rw [CSVDataTable.parseAux_newline_outside, List.nil_append,
        endRow_plain _ hlast.1 (jsTrim_eq_self_of_plainField hlast) r.dropLast rows, hd]
      rw [ih (fun x hx => ht x (List.mem_cons_of_mem r hx)) (rows ++ [r])]
      simp

theorem parseCSV1_renderTable (t : List (List String)) (ht : plainTable t) :
    CSVDataTable.parseCSV (renderTable t) = t := by
  show CSVDataTable.parseAux (renderTableChars t) false "" [] [] = t
  rw [parseAux_renderTable t ht []]
  rfl

theorem parseCSV0_renderTable (t : List (List String)) (ht : plainTable t) :
    LiveResponsesTable.parseCSV (renderTable t) = tableToRecords t := by
  have hlines := splitLinesAux_renderTable t ht []
  rw [List.nil_append] at hlines
  show (if LiveResponsesTable.splitLinesAux (renderTable t).data false "" [] = [] then []
    else
      if ((LiveResponsesTable.splitLinesAux (renderTable t).data false "" []).map
          LiveResponsesTable.parseLine).length < 2 then []
      else
        ((LiveResponsesTable.splitLinesAux (renderTable t).data false "" []).map
            LiveResponsesTable.parseLine).tail.map
          (fun row =>
            LiveResponsesTable.buildRow
              (((LiveResponsesTable.splitLinesAux (renderTable t).data false "" []).map
                  LiveResponsesTable.parseLine).headD [])
              row)) = tableToRecords t
  rw [show (renderTable t).data = renderTableChars t from rfl, hlines]
  have hparsed : (t.map renderRow).map LiveResponsesTable.parseLine = t := by
    rw [List.map_map]
    have : ∀ x ∈ t, (LiveResponsesTable.parseLine ∘ renderRow) x = id x := by
      intro x hx
      obtain ⟨hxne, hxf⟩ := ht x hx
      exact parseLine_renderRow x hxne hxf
    rw [List.map_congr_left this, List.map_id]
  cases t with
  | nil => rfl
  | cons r t =>
    cases t with
    | nil =>
      rw [if_neg (by simp), hparsed]
      rfl
    | cons r2 t2 =>
      rw [if_neg (by simp), hparsed, if_neg (by simp)]
      rfl

/-- C10 counterexample: on the input `h` newline `"a""b"`, mapping the
CSVDataTable table through the header-record construction yields the
record value `a"b`, while the LiveResponsesTable parser yields `a""b`,
so the two implementations do not agree on every input. -/
theorem parsers_disagree_on_escaped_quotes :
    tableToRecords (CSVDataTable.parseCSV "h\n\"a\"\"b\"") ≠
      LiveResponsesTable.parseCSV "h\n\"a\"\"b\"" := by decide

/-- C10 (amended): the two parsers agree on simple CSV text: for every
table of nonempty rows of plain fields (nonempty, no quote, comma or
line-terminator characters, no leading or trailing whitespace), parsing
the rendered text with the CSVDataTable parser and turning the first row
into headers and the later rows into positionally keyed records gives
exactly the records produced by the LiveResponsesTable parser. -/
theorem parsers_agree_on_plain_tables (t : List (List String)) (ht : plainTable t) :
    tableToRecords (CSVDataTable.parseCSV (renderTable t)) =
      LiveResponsesTable.parseCSV (renderTable t) := by
  rw [parseCSV1_renderTable t ht, parseCSV0_renderTable t ht]

/-- C10 witness: the agreement theorem applied to the concrete plain
table with headers `h1, h2` and one data row `a, b`. -/
theorem parsers_agree_on_plain_tables_witness :
    tableToRecords (CSVDataTable.parseCSV (renderTable [["h1", "h2"], ["a", "b"]])) =
      LiveResponsesTable.parseCSV (renderTable [["h1", "h2"], ["a", "b"]]) :=
  parsers_agree_on_plain_tables [["h1", "h2"], ["a", "b"]] (by decide)
